import Mathlib

/-!
Shallow embedding of the agent-rag retrieval layer
(modules/agent-rag: retriever/types.go, retriever/errors.go,
retriever/retriever.go, the WeaviateClient adapter and the graphql
query builder) together with proofs about the fusion engine, the
temporal decay, the retrieval coordinator's error policy, the config
lifecycle, response parsing and the query builder.

Modelling conventions:
* Go `float64` scores and times are modelled as real numbers; a
  wall-clock instant is a real number of minutes, so that Go's
  `currentTime.Sub(timestamp).Minutes()` becomes plain subtraction.
* Go maps used by the fusion engine (`scoreMap`, `resultMap`) are
  modelled as association lists in insertion order; Go's randomized
  iteration order only permutes ties in the final sort, which no claim
  depends on.
* Decoded JSON (`interface{}` holding `map[string]interface{}`,
  `[]interface{}`, `string`, `float64`, `bool`, `nil`) is modelled by
  the inductive `JValue`.
* The HTTP adapter is external I/O: coordinator operations take the
  adapter call's outcome as an explicit argument and also return a
  Boolean recording whether the adapter was contacted.
-/

namespace AgentRAG

/-- Wall-clock time, in minutes (Go `time.Time`; differences via
`Sub(..).Minutes()`). -/
abbrev Time := ℝ

/-- Go `SourceType` is a string type (`retriever/types.go`). -/
abbrev SourceType := String

/-- `SourceStatic` constant from `retriever/types.go`. -/
def SourceStatic : SourceType := "static"

/-- `SourceConversation` constant from `retriever/types.go`. -/
def SourceConversation : SourceType := "conversation"

/-- Decoded JSON value (Go `interface{}` after `encoding/json`
unmarshalling). -/
inductive JValue where
  | null : JValue
  | bool (b : Bool) : JValue
  | num (x : ℝ) : JValue
  | str (s : String) : JValue
  | arr (xs : List JValue) : JValue
  | obj (fields : List (String × JValue)) : JValue

/-- `SearchResult` from `retriever/types.go`. -/
structure SearchResult where
  id : String
  docID : String
  score : ℝ
  text : String
  metadata : List (String × JValue)
  source : SourceType
  timestamp : Option Time

/-- The Go zero value of `SearchResult` (empty strings, score 0, nil
map, nil timestamp). -/
instance : Inhabited SearchResult :=
  ⟨{ id := "", docID := "", score := 0, text := "", metadata := [],
     source := "", timestamp := none }⟩

/-- `MergeConfig` from `retriever/types.go`. -/
structure MergeConfig where
  staticWeight : ℝ
  conversationWeight : ℝ
  temporalDecayEnabled : Bool
  halfLifeMinutes : ℝ
  minTemporalWeight : ℝ
  algorithm : String
  rrfK : ℤ

/-- `DefaultMergeConfig` from `retriever/types.go`. -/
def DefaultMergeConfig : MergeConfig :=
  { staticWeight := 0.6
    conversationWeight := 0.4
    temporalDecayEnabled := true
    halfLifeMinutes := 30
    minTemporalWeight := 0.01
    algorithm := "weighted"
    rrfK := 60 }

/-- Sentinel error messages from `retriever/errors.go` (`errors.New`). -/
def ErrInvalidWeight : String := "weight must be between 0 and 1"

/-- `ErrInvalidHalfLife` from `retriever/errors.go`. -/
def ErrInvalidHalfLife : String := "half-life must be positive"

/-- `ErrInvalidMinWeight` from `retriever/errors.go`. -/
def ErrInvalidMinWeight : String := "minimum weight must be between 0 and 1"

/-- `ErrClosedRetriever` from `retriever/errors.go`. -/
def ErrClosedRetriever : String := "retriever is closed"

/-- `MergeConfig.Validate` from `retriever/types.go`: `none` means the
config is accepted, `some e` is the returned error. -/
noncomputable def MergeConfig.Validate (c : MergeConfig) : Option String :=
  if c.staticWeight < 0 ∨ c.staticWeight > 1 then some ErrInvalidWeight
  else if c.conversationWeight < 0 ∨ c.conversationWeight > 1 then some ErrInvalidWeight
  else if c.halfLifeMinutes ≤ 0 then some ErrInvalidHalfLife
  else if c.minTemporalWeight < 0 ∨ c.minTemporalWeight > 1 then some ErrInvalidMinWeight
  else none

/-- `TemporalDecay` from `retriever/errors.go`. -/
structure TemporalDecay where
  halfLifeMinutes : ℝ
  minWeight : ℝ
  enabled : Bool

/-- `NewTemporalDecay` from `retriever/errors.go`. -/
def NewTemporalDecay (halfLifeMinutes minWeight : ℝ) (enabled : Bool) :
    TemporalDecay :=
  { halfLifeMinutes := halfLifeMinutes, minWeight := minWeight, enabled := enabled }

/-- `TemporalDecay.Apply` from `retriever/errors.go`:
`score * max(minWeight-floored exp(-ln 2 * Δt / halfLife))`, written
with the source's `if decayFactor < minWeight` branch. -/
noncomputable def TemporalDecay.Apply (td : TemporalDecay)
    (score : ℝ) (timestamp currentTime : Time) : ℝ :=
  if td.enabled = false then score
  else
    let timeDiff := currentTime - timestamp
    let decayFactor := Real.exp (-(Real.log 2) * timeDiff / td.halfLifeMinutes)
    let floored := if decayFactor < td.minWeight then td.minWeight else decayFactor
    score * floored

/-- `TemporalDecay.ApplyToResults` from `retriever/errors.go`: decay
only conversation-sourced records that carry a timestamp; order is
preserved. -/
noncomputable def TemporalDecay.ApplyToResults (td : TemporalDecay)
    (results : List SearchResult) (currentTime : Time) : List SearchResult :=
  results.map fun r =>
    if r.source = SourceConversation then
      match r.timestamp with
      | some ts => { r with score := td.Apply r.score ts currentTime }
      | none => r
    else r

/-! ### Go maps as insertion-ordered association lists -/

/-- Lookup in an insertion-ordered association list (Go `m[k]` with
`ok`). -/
def lookupA {α : Type} (m : List (String × α)) (k : String) : Option α :=
  (m.find? (fun p => p.1 == k)).map (·.2)

/-- Go `m[k] = v`: overwrite in place, or append a fresh key. -/
def insertA {α : Type} (m : List (String × α)) (k : String) (v : α) :
    List (String × α) :=
  match m with
  | [] => [(k, v)]
  | p :: rest => if p.1 == k then (k, v) :: rest else p :: insertA rest k v

/-- Keys of an association list. -/
def keysA {α : Type} (m : List (String × α)) : List String := m.map (·.1)

/-! ### Sorting (Go `sort.Slice` with `Score >` comparator) -/

/-- The descending-score ordering the fusion engine sorts by. -/
def scoreGE (a b : SearchResult) : Prop := b.score ≤ a.score

noncomputable instance : DecidableRel scoreGE := fun a b =>
  inferInstanceAs (Decidable (b.score ≤ a.score))

instance : IsTotal SearchResult scoreGE := ⟨fun a b => le_total b.score a.score⟩

instance : IsTrans SearchResult scoreGE :=
  ⟨fun _ _ _ h h' => le_trans h' h⟩

/-- `sort.Slice(results, func(i, j) { Score[i] > Score[j] })`: any sort
producing a descending permutation; tie order in the Go code is
unspecified (map iteration is randomized). -/
noncomputable def sortByScoreDesc (results : List SearchResult) : List SearchResult :=
  List.insertionSort scoreGE results

/-! ### Fusion engine (`ResultMerger`, retriever/types.go)

Both merge loops follow the same two-phase pattern over the two Go maps
`scoreMap`/`resultMap`; `phase1` is the first loop (unconditional
assignment), `phase2` the second (add when the identifier already has a
score, assign otherwise), `finalize` the map-to-slice conversion plus
the final sort. -/

/-- `scoreMap` and `resultMap` of the Go merge loops. -/
abbrev ScoreMaps := List (String × ℝ) × List (String × SearchResult)

/-- First merge loop: `scoreMap[id] = w(x); resultMap[id] = rec(x)`. -/
def phase1 {α : Type} (key : α → String) (rec : α → SearchResult)
    (w : α → ℝ) (l : List α) (maps : ScoreMaps) : ScoreMaps :=
  l.foldl (fun m x =>
    (insertA m.1 (key x) (w x), insertA m.2 (key x) (rec x))) maps

/-- Second merge loop: add to the existing score on an identifier
match, otherwise assign score and record. -/
def phase2 {α : Type} (key : α → String) (rec : α → SearchResult)
    (w : α → ℝ) (l : List α) (maps : ScoreMaps) : ScoreMaps :=
  l.foldl (fun m x =>
    match lookupA m.1 (key x) with
    | some existing => (insertA m.1 (key x) (existing + w x), m.2)
    | none => (insertA m.1 (key x) (w x), insertA m.2 (key x) (rec x))) maps

/-- Map-to-slice conversion (`result := resultMap[id]; result.Score =
score`) followed by the final descending sort. -/
noncomputable def finalize (maps : ScoreMaps) : List SearchResult :=
  sortByScoreDesc (maps.1.map fun p =>
    { (lookupA maps.2 p.1).getD default with score := p.2 })

/-- `ResultMerger` from `retriever/types.go`. -/
structure ResultMerger where
  config : MergeConfig
  temporalDecay : TemporalDecay

/-- `NewResultMerger` from `retriever/types.go`. -/
noncomputable def NewResultMerger (config : MergeConfig) :
    Except String ResultMerger :=
  match config.Validate with
  | some e => .error e
  | none => .ok ⟨config, NewTemporalDecay config.halfLifeMinutes
      config.minTemporalWeight config.temporalDecayEnabled⟩

/-- The per-conversation-record weighted score of `mergeWeighted`:
weight, then temporal decay when a timestamp is present. -/
noncomputable def weightedConvScore (rm : ResultMerger) (r : SearchResult)
    (currentTime : Time) : ℝ :=
  match r.timestamp with
  | some ts => rm.temporalDecay.Apply (r.score * rm.config.conversationWeight)
      ts currentTime
  | none => r.score * rm.config.conversationWeight

/-- `ResultMerger.mergeWeighted` from `retriever/types.go`. -/
noncomputable def ResultMerger.mergeWeighted (rm : ResultMerger)
    (staticResults convResults : List SearchResult) (currentTime : Time) :
    List SearchResult :=
  finalize (phase2 (fun r => r.id) (fun r => r)
    (fun r => weightedConvScore rm r currentTime) convResults
    (phase1 (fun r => r.id) (fun r => r)
      (fun r => r.score * rm.config.staticWeight) staticResults ([], [])))

/-- `ResultMerger.mergeRRF` from `retriever/types.go`: rank scores
`1/(k+rank) * weight`; the conversation list is decayed and re-sorted
before ranks are assigned. -/
noncomputable def ResultMerger.mergeRRF (rm : ResultMerger)
    (staticResults convResults : List SearchResult) (currentTime : Time) :
    List SearchResult :=
  let k : ℝ := (rm.config.rrfK : ℝ)
  let decayedConv :=
    sortByScoreDesc (rm.temporalDecay.ApplyToResults convResults currentTime)
  finalize (phase2 (fun p => p.2.id) (fun p => p.2)
    (fun p => 1 / (k + (p.1 : ℝ)) * rm.config.conversationWeight)
    decayedConv.enum
    (phase1 (fun p => p.2.id) (fun p => p.2)
      (fun p => 1 / (k + (p.1 : ℝ)) * rm.config.staticWeight)
      staticResults.enum ([], [])))

/-- `ResultMerger.Merge` from `retriever/types.go`: algorithm dispatch;
any unrecognized selector falls back to weighted fusion. -/
noncomputable def ResultMerger.Merge (rm : ResultMerger)
    (staticResults convResults : List SearchResult) (currentTime : Time) :
    List SearchResult :=
  if rm.config.algorithm = "rrf" ∨ rm.config.algorithm = "reciprocal_rank_fusion"
  then rm.mergeRRF staticResults convResults currentTime
  else rm.mergeWeighted staticResults convResults currentTime

/-- `ResultMerger.SetConfig` from `retriever/types.go`. -/
noncomputable def ResultMerger.SetConfig (rm : ResultMerger)
    (config : MergeConfig) : Except String ResultMerger :=
  match config.Validate with
  | some e => .error e
  | none => .ok ⟨config, NewTemporalDecay config.halfLifeMinutes
      config.minTemporalWeight config.temporalDecayEnabled⟩

/-! ### Query record (`retriever/types.go`) -/

/-- `Query` from `retriever/types.go` (vector elements as exact
rationals, filters omitted: no claim touches them). -/
structure Query where
  text : String
  vector : List ℚ
  limit : ℤ
  timeRange : Option (Time × Time)
  includeMeta : Bool

/-- `IndexConfig` from `retriever/types.go`. -/
structure IndexConfig where
  staticIndexName : String
  conversationIndexName : String
  vectorizer : String
  distanceMetric : String

/-- `DefaultIndexConfig` from `retriever/types.go`. -/
def DefaultIndexConfig : IndexConfig :=
  { staticIndexName := "KnowledgeBase"
    conversationIndexName := "Conversation"
    vectorizer := "text2vec-transformers"
    distanceMetric := "cosine" }

/-! ### Retrieval coordinator (`retriever/retriever.go`)

The Weaviate adapter performs network I/O, so each coordinator
operation takes the adapter call's outcome as an explicit argument and
returns, besides its result, a Boolean that records whether the adapter
was contacted. The state carries a counter of `client.Close` calls so
idempotence of `Close` is observable. -/

/-- `AgentRAGRetriever` state from `retriever/retriever.go`. -/
structure AgentRAGRetriever where
  config : MergeConfig
  merger : ResultMerger
  indexConfig : IndexConfig
  temporalDecay : TemporalDecay
  closed : Bool
  clientCloseCalls : ℕ

/-- `NewAgentRAGRetriever` from `retriever/retriever.go` (client
construction never fails in the source; the merge config is validated
before anything else). -/
noncomputable def NewAgentRAGRetriever (mergeConfig : Option MergeConfig)
    (indexConfig : Option IndexConfig) : Except String AgentRAGRetriever :=
  let mc := mergeConfig.getD DefaultMergeConfig
  let ic := indexConfig.getD DefaultIndexConfig
  match mc.Validate with
  | some e => .error ("invalid config: " ++ e)
  | none =>
      let td := NewTemporalDecay mc.halfLifeMinutes mc.minTemporalWeight
        mc.temporalDecayEnabled
      .ok { config := mc, merger := ⟨mc, td⟩, indexConfig := ic,
            temporalDecay := td, closed := false, clientCloseCalls := 0 }

/-- `AgentRAGRetriever.SearchStatic` from `retriever/retriever.go`. -/
def AgentRAGRetriever.SearchStatic (r : AgentRAGRetriever)
    (clientOutcome : Except String (List SearchResult)) :
    Except String (List SearchResult) × Bool :=
  if r.closed then (.error ErrClosedRetriever, false)
  else (clientOutcome, true)

/-- `AgentRAGRetriever.SearchConversation` from
`retriever/retriever.go`: forwards to the adapter, then applies
temporal decay. -/
noncomputable def AgentRAGRetriever.SearchConversation (r : AgentRAGRetriever)
    (clientOutcome : Except String (List SearchResult)) (now : Time) :
    Except String (List SearchResult) × Bool :=
  if r.closed then (.error ErrClosedRetriever, false)
  else
    match clientOutcome with
    | .error e => (.error e, true)
    | .ok results => (.ok (r.temporalDecay.ApplyToResults results now), true)

/-- `AgentRAGRetriever.SearchHybrid` from `retriever/retriever.go`:
partial-failure policy after the parallel join, then fusion, then the
caller's limit. -/
noncomputable def AgentRAGRetriever.SearchHybrid (r : AgentRAGRetriever)
    (staticOutcome convOutcome : Except String (List SearchResult))
    (query : Query) (now : Time) :
    Except String (List SearchResult) × Bool :=
  if r.closed then (.error ErrClosedRetriever, false)
  else
    match staticOutcome, convOutcome with
    | .error se, .error ce =>
        (.error ("both searches failed: static=" ++ se ++ ", conversation=" ++ ce),
         true)
    | so, co =>
        let staticResults := match so with | .ok s => s | .error _ => []
        let convResults := match co with | .ok c => c | .error _ => []
        let merged := r.merger.Merge staticResults convResults now
        let final :=
          if 0 < query.limit ∧ query.limit < (merged.length : ℤ)
          then merged.take query.limit.toNat else merged
        (.ok final, true)

/-- `AgentRAGRetriever.AddConversationTurn` from
`retriever/retriever.go`. -/
def AgentRAGRetriever.AddConversationTurn (r : AgentRAGRetriever)
    (clientOutcome : Except String String) : Except String String × Bool :=
  if r.closed then (.error ErrClosedRetriever, false)
  else (clientOutcome, true)

/-- `AgentRAGRetriever.AddKnowledgeDocument` from
`retriever/retriever.go`. -/
def AgentRAGRetriever.AddKnowledgeDocument (r : AgentRAGRetriever)
    (clientOutcome : Except String String) : Except String String × Bool :=
  if r.closed then (.error ErrClosedRetriever, false)
  else (clientOutcome, true)

/-- `AgentRAGRetriever.PruneOldConversations` from
`retriever/retriever.go`. -/
def AgentRAGRetriever.PruneOldConversations (r : AgentRAGRetriever)
    (clientOutcome : Except String ℤ) : Except String ℤ × Bool :=
  if r.closed then (.error ErrClosedRetriever, false)
  else (clientOutcome, true)

/-- `AgentRAGRetriever.HealthCheck` from `retriever/retriever.go`. -/
def AgentRAGRetriever.HealthCheck (r : AgentRAGRetriever)
    (clientOutcome : Except String Unit) : Except String Unit × Bool :=
  if r.closed then (.error ErrClosedRetriever, false)
  else (clientOutcome, true)

/-- `AgentRAGRetriever.UpdateConfig` from `retriever/retriever.go`:
validate, then install; the `SetConfig` error value is discarded by the
source. The `closed` flag is not consulted. -/
noncomputable def AgentRAGRetriever.UpdateConfig (r : AgentRAGRetriever)
    (config : MergeConfig) : AgentRAGRetriever × Option String :=
  match config.Validate with
  | some e => (r, some e)
  | none =>
      let merger' := match r.merger.SetConfig config with
        | .ok m => m
        | .error _ => r.merger
      let td' := NewTemporalDecay config.halfLifeMinutes
        config.minTemporalWeight config.temporalDecayEnabled
      ({ r with config := config, merger := merger', temporalDecay := td' },
       none)

/-- `AgentRAGRetriever.Close` from `retriever/retriever.go`
(`client.Close` always returns nil). -/
def AgentRAGRetriever.Close (r : AgentRAGRetriever) :
    AgentRAGRetriever × Except String Unit :=
  if r.closed then (r, .ok ())
  else ({ r with closed := true, clientCloseCalls := r.clientCloseCalls + 1 },
        .ok ())

/-- `AgentRAGRetriever.IsClosed` from `retriever/retriever.go`. -/
def AgentRAGRetriever.IsClosed (r : AgentRAGRetriever) : Bool := r.closed

/-! ### Backing-store adapter: response parsing (WeaviateClient) -/

/-- Lookup in a decoded JSON object (Go `m[key]` on
`map[string]interface\x7b\x7d`). -/
def lookupJ (fields : List (String × JValue)) (k : String) : Option JValue :=
  (fields.find? (fun p => p.1 == k)).map (·.2)

/-- The path-navigation loop shared by `parseSearchResults` and
`parseConversationResults`: re-narrow to a map at every step, fail
softly on a missing key or a non-map. -/
def navigatePath : JValue → List String → Except String JValue
  | v, [] => .ok v
  | JValue.obj m, key :: rest =>
      match lookupJ m key with
      | some val => navigatePath val rest
      | none => .error ("key not found: " ++ key)
  | _, key :: _ => .error ("unexpected type at path " ++ key)

/-- `WeaviateClient.extractSearchResult`: destructure one record map;
every missing or wrong-typed field keeps the zero value. -/
def extractSearchResult (objMap : List (String × JValue)) : SearchResult :=
  let r0 : SearchResult := { id := "", docID := "", score := 0, text := "",
                             metadata := [], source := "", timestamp := none }
  let r1 := match lookupJ objMap "_additional" with
    | some (JValue.obj additional) =>
        let rid := match lookupJ additional "id" with
          | some (JValue.str s) => s
          | _ => r0.id
        let rscore := match lookupJ additional "score" with
          | some (JValue.num x) => x
          | _ => r0.score
        { r0 with id := rid, score := rscore }
    | _ => r0
  let r2 := match lookupJ objMap "message" with
    | some (JValue.str m) => { r1 with text := m, docID := r1.id }
    | _ => match lookupJ objMap "content" with
      | some (JValue.str c) => { r1 with text := c, docID := r1.id }
      | _ => match lookupJ objMap "title" with
        | some (JValue.str t) => { r1 with text := t, docID := r1.id }
        | _ => r1
  let meta := objMap.filter (fun p =>
    !(p.1 == "_additional" || p.1 == "message" || p.1 == "content" ||
      p.1 == "title"))
  { r2 with metadata := meta }

/-- `WeaviateClient.parseSearchResults`: navigate the fixed path, then
collect every element of the result array that is a map (non-map
elements and a non-array node are silently skipped), tagged `static`. -/
def parseSearchResults (data : List (String × JValue)) (path : List String) :
    Except String (List SearchResult) :=
  match navigatePath (JValue.obj data) path with
  | .error e => .error e
  | .ok current =>
      match current with
      | JValue.arr objects =>
          .ok (objects.filterMap fun obj =>
            match obj with
            | JValue.obj m => some { extractSearchResult m with source := SourceStatic }
            | _ => none)
      | _ => .ok []

/-- `WeaviateClient.executeBatchDelete`: run the mutation, then return
the placeholder count 0 on success (the source does not parse the
response's deleted count). -/
def executeBatchDelete (graphqlOutcome : Except String (List (String × JValue))) :
    Except String ℤ :=
  match graphqlOutcome with
  | .error e => .error e
  | .ok _ => .ok 0

/-- `WeaviateClient.PruneOldConversations`: issue the batch delete and
surface its count. -/
def WeaviateClient.PruneOldConversations
    (graphqlOutcome : Except String (List (String × JValue))) :
    Except String ℤ :=
  match executeBatchDelete graphqlOutcome with
  | .error e => .error ("pruning failed: " ++ e)
  | .ok count => .ok count

/-- `graphql.GetResultPath` from the graphql package. -/
def GetResultPath (className : String) : List String := ["Get", className]

/-! ### Query builder (`graphql` package)

Strings containing literal braces write them as `\x7b` / `\x7d`. -/

/-- `QueryBuilder` from the graphql package. -/
structure QueryBuilder where
  className : String
  limit : ℤ

/-- `NewQueryBuilder` from the graphql package. -/
def NewQueryBuilder (className : String) (limit : ℤ) : QueryBuilder :=
  ⟨className, limit⟩

/-- One character of `escapeGraphQL`; the five sequential
`strings.ReplaceAll` passes of the source act character-wise (no pass
re-examines characters introduced by an earlier one). -/
def escapeChar (c : Char) : List Char :=
  if c = '\\' then ['\\', '\\']
  else if c = '"' then ['\\', '"']
  else if c = '\n' then ['\\', 'n']
  else if c = '\r' then ['\\', 'r']
  else if c = '\t' then ['\\', 't']
  else [c]

/-- `escapeGraphQL` from the graphql package. -/
def escapeGraphQL (s : String) : String :=
  String.mk (s.data.flatMap escapeChar)

/-- Fixed-point rendering of a non-negative scaled integer with `prec`
fractional digits (the `%.*f` verb for the magnitude). -/
def formatFixedNat (n : ℕ) (prec : ℕ) : String :=
  let base := 10 ^ prec
  let whole := n / base
  let frac := n % base
  if prec = 0 then Nat.repr whole
  else
    let fracStr := Nat.repr frac
    let padded := String.mk (List.replicate (prec - fracStr.length) '0') ++ fracStr
    Nat.repr whole ++ "." ++ padded

/-- Go `fmt.Sprintf("%.*f", prec, x)` over exact rationals: round the
scaled magnitude `|x| * 10^prec` to the nearest integer
(`(2*n*B + d) / (2*d)` is `floor(|x|*B + 1/2)` for `|x| = n/d`),
prepending the sign. -/
def formatFixed (x : ℚ) (prec : ℕ) : String :=
  let B : ℤ := ((10 ^ prec : ℕ) : ℤ)
  let d : ℤ := (x.den : ℤ)
  if x < 0 then
    "-" ++ formatFixedNat (Int.toNat ((2 * (-x.num) * B + d) / (2 * d))) prec
  else formatFixedNat (Int.toNat ((2 * x.num * B + d) / (2 * d))) prec

/-- `formatVector` from the graphql package: six fractional digits,
comma separated, empty for the empty vector. -/
def formatVector (vector : List ℚ) : String :=
  if vector.isEmpty then ""
  else String.intercalate "," (vector.map fun v => formatFixed v 6)

/-- `QueryBuilder.buildFieldList` from the graphql package. -/
def QueryBuilder.buildFieldList (qb : QueryBuilder) : String :=
  if qb.className = "Conversation" then "message,speaker,timestamp"
  else "title,content"

/-- `QueryBuilder.HybridQuery` from the graphql package. -/
def QueryBuilder.HybridQuery (qb : QueryBuilder) (queryText : String)
    (vector : List ℚ) (alpha : ℚ) : String :=
  "\x7b Get \x7b " ++ qb.className ++ "(hybrid:\x7bquery:\"" ++
    escapeGraphQL queryText ++ "\",vector:[" ++ formatVector vector ++
    "],alpha:" ++ formatFixed alpha 2 ++ "\x7d,limit:" ++ Int.repr qb.limit ++
    ")\x7b_additional\x7bid,score,vector\x7d" ++ qb.buildFieldList ++
    "\x7d\x7d\x7d"

/-! ## Theorems -/

/-! ### Temporal decay (claims C4, C5) -/

/-- Unfolding of `Apply` when decay is enabled. -/
theorem TemporalDecay.Apply_enabled (td : TemporalDecay) (h : td.enabled = true)
    (score : ℝ) (timestamp currentTime : Time) :
    td.Apply score timestamp currentTime =
      score * (if Real.exp (-(Real.log 2) * (currentTime - timestamp) /
                  td.halfLifeMinutes) < td.minWeight
               then td.minWeight
               else Real.exp (-(Real.log 2) * (currentTime - timestamp) /
                  td.halfLifeMinutes)) := by
  simp [TemporalDecay.Apply, h]

/-- The floored decay factor lies between the floor and 1 when the
record is not future-dated. -/
theorem decayFactor_bounds (td : TemporalDecay) (hH : 0 < td.halfLifeMinutes)
    (hm0 : 0 ≤ td.minWeight) (hm1 : td.minWeight ≤ 1)
    (timestamp currentTime : Time) (hts : timestamp ≤ currentTime) :
    td.minWeight ≤
      (if Real.exp (-(Real.log 2) * (currentTime - timestamp) /
          td.halfLifeMinutes) < td.minWeight
       then td.minWeight
       else Real.exp (-(Real.log 2) * (currentTime - timestamp) /
          td.halfLifeMinutes)) ∧
      (if Real.exp (-(Real.log 2) * (currentTime - timestamp) /
          td.halfLifeMinutes) < td.minWeight
       then td.minWeight
       else Real.exp (-(Real.log 2) * (currentTime - timestamp) /
          td.halfLifeMinutes)) ≤ 1 := by
  have hexp : Real.exp (-(Real.log 2) * (currentTime - timestamp) /
      td.halfLifeMinutes) ≤ 1 := by
    rw [Real.exp_le_one_iff]
    apply div_nonpos_of_nonpos_of_nonneg _ hH.le
    have hlog : 0 ≤ Real.log 2 := Real.log_nonneg (by norm_num)
    have hdt : 0 ≤ currentTime - timestamp := sub_nonneg.mpr hts
    nlinarith
  constructor
  · split
    · exact le_rfl
    · next h => exact le_of_not_lt h
  · split
    · exact hm1
    · exact hexp

/-- `exp(-ln 2) = 1/2`. -/
theorem exp_neg_log_two : Real.exp (-Real.log 2) = 1 / 2 := by
  rw [Real.exp_neg, Real.exp_log] <;> norm_num

/-- `exp(-2 ln 2) = 1/4`. -/
theorem exp_neg_two_log_two : Real.exp (-(2 * Real.log 2)) = 1 / 4 := by
  have h : -(2 * Real.log 2) = -Real.log 2 + -Real.log 2 := by ring
  rw [h, Real.exp_add, exp_neg_log_two]
  norm_num

/-- C4, amended: for every non-negative base score, enabled decay
configuration with half-life `H > 0` and floor `m ∈ [0,1]`, and every
record timestamp not after the reference time, `m·score ≤
Apply(score, timestamp, reference) ≤ score`; the decay multiplier is
exactly 1 at `Δt = 0`; it is exactly `1/2` at `Δt = H` provided the
floor does not intrude (`m ≤ 1/2`), and exactly `1/4` at `Δt = 2H`
provided `m ≤ 1/4`. (As stated, the 0.5/0.25 checkpoints fail for
floors above them — see the counterexample.) -/
theorem temporalDecay_bounds_and_checkpoints (td : TemporalDecay)
    (hen : td.enabled = true) (hH : 0 < td.halfLifeMinutes)
    (hm0 : 0 ≤ td.minWeight) (hm1 : td.minWeight ≤ 1)
    (score : ℝ) (hsc : 0 ≤ score)
    (timestamp currentTime : Time) (hts : timestamp ≤ currentTime) :
    (td.minWeight * score ≤ td.Apply score timestamp currentTime ∧
      td.Apply score timestamp currentTime ≤ score) ∧
    td.Apply score currentTime currentTime = score ∧
    (td.minWeight ≤ 1 / 2 →
      td.Apply score (currentTime - td.halfLifeMinutes) currentTime =
        score * (1 / 2)) ∧
    (td.minWeight ≤ 1 / 4 →
      td.Apply score (currentTime - 2 * td.halfLifeMinutes) currentTime =
        score * (1 / 4)) := by
  have hne : td.halfLifeMinutes ≠ 0 := ne_of_gt hH
  refine ⟨?_, ?_, ?_, ?_⟩
  · rw [TemporalDecay.Apply_enabled td hen]
    obtain ⟨h1, h2⟩ := decayFactor_bounds td hH hm0 hm1 timestamp currentTime hts
    constructor
    · calc td.minWeight * score = score * td.minWeight := by ring
        _ ≤ score * _ := mul_le_mul_of_nonneg_left h1 hsc
    · calc score * _ ≤ score * 1 := mul_le_mul_of_nonneg_left h2 hsc
        _ = score := mul_one score
  · rw [TemporalDecay.Apply_enabled td hen]
    have h0 : -Real.log 2 * (currentTime - currentTime) / td.halfLifeMinutes = 0 := by
      rw [sub_self]
      ring
    rw [h0, Real.exp_zero, if_neg (not_lt.mpr hm1), mul_one]
  · intro hm
    rw [TemporalDecay.Apply_enabled td hen]
    have h1 : -Real.log 2 * (currentTime - (currentTime - td.halfLifeMinutes)) /
        td.halfLifeMinutes = -Real.log 2 := by
      rw [sub_sub_cancel]
      field_simp
    rw [h1, exp_neg_log_two, if_neg (not_lt.mpr hm)]
  · intro hm
    rw [TemporalDecay.Apply_enabled td hen]
    have h2 : -Real.log 2 * (currentTime - (currentTime - 2 * td.halfLifeMinutes)) /
        td.halfLifeMinutes = -(2 * Real.log 2) := by
      rw [sub_sub_cancel]
      field_simp
      ring
    rw [h2, exp_neg_two_log_two, if_neg (not_lt.mpr hm)]

/-- Witness for `temporalDecay_bounds_and_checkpoints` at the default
configuration (H = 30, m = 1/100, enabled), score 1, timestamps 0 and
reference 30. -/
theorem temporalDecay_bounds_and_checkpoints_witness :
    (NewTemporalDecay 30 (1 / 100) true).enabled = true ∧
    (0 : ℝ) < 30 ∧ (0 : ℝ) ≤ 1 / 100 ∧ (1 / 100 : ℝ) ≤ 1 ∧
    (0 : ℝ) ≤ 1 ∧ (0 : Time) ≤ 30 ∧
    (((NewTemporalDecay 30 (1 / 100) true).minWeight * 1 ≤
        (NewTemporalDecay 30 (1 / 100) true).Apply 1 0 30 ∧
      (NewTemporalDecay 30 (1 / 100) true).Apply 1 0 30 ≤ 1) ∧
    (NewTemporalDecay 30 (1 / 100) true).Apply 1 30 30 = 1 ∧
    ((NewTemporalDecay 30 (1 / 100) true).minWeight ≤ 1 / 2 →
      (NewTemporalDecay 30 (1 / 100) true).Apply 1
        (30 - (NewTemporalDecay 30 (1 / 100) true).halfLifeMinutes) 30 =
          1 * (1 / 2)) ∧
    ((NewTemporalDecay 30 (1 / 100) true).minWeight ≤ 1 / 4 →
      (NewTemporalDecay 30 (1 / 100) true).Apply 1
        (30 - 2 * (NewTemporalDecay 30 (1 / 100) true).halfLifeMinutes) 30 =
          1 * (1 / 4))) :=
  ⟨rfl, by norm_num, by norm_num, by norm_num, by norm_num, by norm_num,
    temporalDecay_bounds_and_checkpoints (NewTemporalDecay 30 (1 / 100) true)
      rfl (id (by norm_num : (0 : ℝ) < 30))
      (id (by norm_num : (0 : ℝ) ≤ 1 / 100))
      (id (by norm_num : (1 / 100 : ℝ) ≤ 1)) 1 (by norm_num)
      0 30 (by norm_num)⟩

/-- C4, counterexample to the claim as stated: with floor m = 9/10
(legal, m ∈ [0,1]) the applied decay multiplier at `Δt = H` is 9/10,
not 0.5 within 1e-9. -/
theorem temporalDecay_checkpoint_counterexample :
    (NewTemporalDecay 30 (9 / 10) true).Apply 1 0 30 = 9 / 10 ∧
    ¬ (|(NewTemporalDecay 30 (9 / 10) true).Apply 1 0 30 - 1 / 2| ≤
        1 / 10 ^ 9) := by
  have happ : (NewTemporalDecay 30 (9 / 10) true).Apply 1 0 30 = 9 / 10 := by
    rw [TemporalDecay.Apply_enabled _ rfl]
    have h1 : -Real.log 2 * ((30 : ℝ) - 0) / (NewTemporalDecay 30 (9 / 10)
        true).halfLifeMinutes = -Real.log 2 := by
      show -Real.log 2 * ((30 : ℝ) - 0) / 30 = -Real.log 2
      ring
    rw [h1, exp_neg_log_two, if_pos (by norm_num [NewTemporalDecay])]
    show (1 : ℝ) * _ = _
    norm_num
    rfl
  refine ⟨happ, ?_⟩
  rw [happ]
  intro habs
  rw [abs_le] at habs
  have := habs.2
  norm_num at this

/-- C5: the source's `TemporalDecay.Apply` does not clamp the decay
multiplier at 1: a record post-dated by one half-life (Δt = −H) is
returned with double its base score, exceeding it. -/
theorem temporalDecay_future_dated_not_clamped :
    (NewTemporalDecay 30 (1 / 100) true).Apply 1 30 0 = 2 ∧
    (1 : ℝ) < (NewTemporalDecay 30 (1 / 100) true).Apply 1 30 0 := by
  have happ : (NewTemporalDecay 30 (1 / 100) true).Apply 1 30 0 = 2 := by
    rw [TemporalDecay.Apply_enabled _ rfl]
    have h1 : -Real.log 2 * ((0 : ℝ) - 30) / (NewTemporalDecay 30 (1 / 100)
        true).halfLifeMinutes = Real.log 2 := by
      show -Real.log 2 * ((0 : ℝ) - 30) / 30 = Real.log 2
      ring
    rw [h1, Real.exp_log (by norm_num)]
    rw [if_neg]
    · norm_num
    · push_neg
      show (1 / 100 : ℝ) ≤ 2
      norm_num
  exact ⟨happ, by rw [happ]; norm_num⟩

/-! ### Association-list lemmas -/

theorem lookupA_nil {α : Type} (k : String) :
    lookupA ([] : List (String × α)) k = none := rfl

theorem keysA_nil {α : Type} : keysA ([] : List (String × α)) = [] := rfl

theorem keysA_cons {α : Type} (p : String × α) (m : List (String × α)) :
    keysA (p :: m) = p.1 :: keysA m := rfl

theorem lookupA_cons {α : Type} (p : String × α) (m : List (String × α))
    (k : String) :
    lookupA (p :: m) k = if p.1 = k then some p.2 else lookupA m k := by
  by_cases h : p.1 = k
  · simp [lookupA, List.find?_cons, h]
  · simp [lookupA, List.find?_cons, beq_eq_false_iff_ne.mpr h, h]

theorem insertA_cons_eq {α : Type} (p : String × α) (m : List (String × α))
    {k : String} (v : α) (h : p.1 = k) :
    insertA (p :: m) k v = (k, v) :: m := by
  simp [insertA, beq_iff_eq.mpr h]

theorem insertA_cons_ne {α : Type} (p : String × α) (m : List (String × α))
    {k : String} (v : α) (h : p.1 ≠ k) :
    insertA (p :: m) k v = p :: insertA m k v := by
  simp [insertA, beq_eq_false_iff_ne.mpr h]

theorem lookupA_insertA_self {α : Type} (m : List (String × α)) (k : String)
    (v : α) : lookupA (insertA m k v) k = some v := by
  induction m with
  | nil => simp [insertA, lookupA_cons]
  | cons p rest ih =>
      by_cases h : p.1 = k
      · rw [insertA_cons_eq p rest v h, lookupA_cons, if_pos rfl]
      · rw [insertA_cons_ne p rest v h, lookupA_cons, if_neg h]
        exact ih

theorem lookupA_insertA_ne {α : Type} (m : List (String × α)) {k k' : String}
    (v : α) (h : k ≠ k') : lookupA (insertA m k v) k' = lookupA m k' := by
  induction m with
  | nil => simp [insertA, lookupA_cons, lookupA_nil, h]
  | cons p rest ih =>
      by_cases hp : p.1 = k
      · rw [insertA_cons_eq p rest v hp, lookupA_cons, lookupA_cons,
          if_neg h, if_neg (hp ▸ h)]
      · rw [insertA_cons_ne p rest v hp, lookupA_cons, lookupA_cons]
        by_cases hk : p.1 = k'
        · rw [if_pos hk, if_pos hk]
        · rw [if_neg hk, if_neg hk]
          exact ih

theorem keysA_insertA {α : Type} (m : List (String × α)) (k : String) (v : α) :
    keysA (insertA m k v) = if k ∈ keysA m then keysA m else keysA m ++ [k] := by
  induction m with
  | nil => simp [insertA, keysA]
  | cons p rest ih =>
      by_cases hp : p.1 = k
      · rw [insertA_cons_eq p rest v hp, keysA_cons, keysA_cons,
          if_pos (by rw [hp]; exact List.mem_cons_self k _)]
        rw [hp]
      · rw [insertA_cons_ne p rest v hp, keysA_cons, keysA_cons, ih]
        have hmemiff : k ∈ p.1 :: keysA rest ↔ k ∈ keysA rest := by
          constructor
          · intro hmem
            rcases List.mem_cons.mp hmem with he | hm
            · exact absurd he.symm hp
            · exact hm
          · exact fun hm => List.mem_cons_of_mem _ hm
        by_cases hm : k ∈ keysA rest
        · rw [if_pos hm, if_pos (hmemiff.mpr hm)]
        · rw [if_neg hm, if_neg (fun hmem => hm (hmemiff.mp hmem))]
          rfl

theorem nodup_keysA_insertA {α : Type} (m : List (String × α)) (k : String)
    (v : α) (h : (keysA m).Nodup) : (keysA (insertA m k v)).Nodup := by
  rw [keysA_insertA]
  split
  · exact h
  · next hmem =>
      simp only [List.nodup_append, List.nodup_cons, List.nodup_nil]
      refine ⟨h, ⟨by simp, by simp⟩, ?_⟩
      intro a ha hak
      simp only [List.mem_singleton] at hak
      exact hmem (hak ▸ ha)

theorem lookupA_eq_some_of_mem {α : Type} {m : List (String × α)}
    (hnd : (keysA m).Nodup) {k : String} {v : α} (hm : (k, v) ∈ m) :
    lookupA m k = some v := by
  induction m with
  | nil => simp at hm
  | cons p rest ih =>
      rw [keysA_cons, List.nodup_cons] at hnd
      rw [lookupA_cons]
      rcases List.mem_cons.mp hm with h | h
      · rw [if_pos (by rw [← h]), ← h]
      · have hkmem : k ∈ keysA rest := by
          have := List.mem_map_of_mem (fun x => x.1) h
          exact this
        have hk : p.1 ≠ k := fun he => hnd.1 (he ▸ hkmem)
        rw [if_neg hk]
        exact ih hnd.2 h

theorem mem_of_lookupA_eq_some {α : Type} {m : List (String × α)} {k : String}
    {v : α} (h : lookupA m k = some v) : (k, v) ∈ m := by
  induction m with
  | nil => simp [lookupA_nil] at h
  | cons p rest ih =>
      rw [lookupA_cons] at h
      by_cases hp : p.1 = k
      · rw [if_pos hp] at h
        obtain ⟨p1, p2⟩ := p
        simp only [Option.some.injEq] at h
        simp only at hp
        rw [List.mem_cons]
        left
        rw [← hp, ← h]
      · rw [if_neg hp] at h
        exact List.mem_cons_of_mem _ (ih h)

/-! ### Merge-loop lemmas -/

theorem phase1_nil {α : Type} (key : α → String) (rec : α → SearchResult)
    (w : α → ℝ) (maps : ScoreMaps) : phase1 key rec w [] maps = maps := rfl

theorem phase1_cons {α : Type} (key : α → String) (rec : α → SearchResult)
    (w : α → ℝ) (x : α) (l : List α) (maps : ScoreMaps) :
    phase1 key rec w (x :: l) maps =
      phase1 key rec w l
        (insertA maps.1 (key x) (w x), insertA maps.2 (key x) (rec x)) := rfl

theorem phase2_nil {α : Type} (key : α → String) (rec : α → SearchResult)
    (w : α → ℝ) (maps : ScoreMaps) : phase2 key rec w [] maps = maps := rfl

theorem phase2_cons {α : Type} (key : α → String) (rec : α → SearchResult)
    (w : α → ℝ) (x : α) (l : List α) (maps : ScoreMaps) :
    phase2 key rec w (x :: l) maps =
      phase2 key rec w l
        (match lookupA maps.1 (key x) with
         | some existing => (insertA maps.1 (key x) (existing + w x), maps.2)
         | none => (insertA maps.1 (key x) (w x),
                    insertA maps.2 (key x) (rec x))) := rfl

theorem find?_eq_none_of_not_mem_keys {α : Type} {key : α → String}
    {l : List α} {i : String} (h : i ∉ l.map key) :
    l.find? (fun x => key x == i) = none := by
  rw [List.find?_eq_none]
  intro y hy hbeq
  rw [beq_iff_eq] at hbeq
  exact h (hbeq ▸ List.mem_map_of_mem key hy)

theorem phase1_fst_lookup {α : Type} (key : α → String) (rec : α → SearchResult)
    (w : α → ℝ) (l : List α) (hnd : (l.map key).Nodup) (maps : ScoreMaps)
    (i : String) :
    lookupA (phase1 key rec w l maps).1 i =
      match l.find? (fun x => key x == i) with
      | some x => some (w x)
      | none => lookupA maps.1 i := by
  induction l generalizing maps with
  | nil => simp [phase1_nil]
  | cons x rest ih =>
      rw [List.map_cons, List.nodup_cons] at hnd
      rw [phase1_cons]
      by_cases hx : key x = i
      · have hfind : rest.find? (fun y => key y == i) = none :=
          find?_eq_none_of_not_mem_keys (hx ▸ hnd.1)
        rw [ih hnd.2, hfind, List.find?_cons_of_pos _ (by simp [hx])]
        rw [← hx, lookupA_insertA_self]
      · rw [ih hnd.2, List.find?_cons_of_neg _ (by simp [hx])]
        cases hfind : rest.find? (fun y => key y == i) with
        | some y => simp [hfind]
        | none => simp [hfind, lookupA_insertA_ne _ _ hx]

theorem phase1_snd_lookup {α : Type} (key : α → String) (rec : α → SearchResult)
    (w : α → ℝ) (l : List α) (hnd : (l.map key).Nodup) (maps : ScoreMaps)
    (i : String) :
    lookupA (phase1 key rec w l maps).2 i =
      match l.find? (fun x => key x == i) with
      | some x => some (rec x)
      | none => lookupA maps.2 i := by
  induction l generalizing maps with
  | nil => simp [phase1_nil]
  | cons x rest ih =>
      rw [List.map_cons, List.nodup_cons] at hnd
      rw [phase1_cons]
      by_cases hx : key x = i
      · have hfind : rest.find? (fun y => key y == i) = none :=
          find?_eq_none_of_not_mem_keys (hx ▸ hnd.1)
        rw [ih hnd.2, hfind, List.find?_cons_of_pos _ (by simp [hx])]
        rw [← hx, lookupA_insertA_self]
      · rw [ih hnd.2, List.find?_cons_of_neg _ (by simp [hx])]
        cases hfind : rest.find? (fun y => key y == i) with
        | some y => simp [hfind]
        | none => simp [hfind, lookupA_insertA_ne _ _ hx]

theorem phase2_fst_lookup {α : Type} (key : α → String) (rec : α → SearchResult)
    (w : α → ℝ) (l : List α) (hnd : (l.map key).Nodup) (maps : ScoreMaps)
    (i : String) :
    lookupA (phase2 key rec w l maps).1 i =
      match l.find? (fun x => key x == i) with
      | some x => some ((lookupA maps.1 i).getD 0 + w x)
      | none => lookupA maps.1 i := by
  induction l generalizing maps with
  | nil => simp [phase2_nil]
  | cons x rest ih =>
      rw [List.map_cons, List.nodup_cons] at hnd
      rw [phase2_cons]
      cases hcase : lookupA maps.1 (key x) with
      | some e =>
          simp only
          by_cases hx : key x = i
          · have hfind : rest.find? (fun y => key y == i) = none :=
              find?_eq_none_of_not_mem_keys (hx ▸ hnd.1)
            rw [ih hnd.2, hfind, List.find?_cons_of_pos _ (by simp [hx]), ← hx,
              lookupA_insertA_self, hcase]
            simp
          · rw [ih hnd.2, List.find?_cons_of_neg _ (by simp [hx])]
            cases hfind : rest.find? (fun y => key y == i) with
            | some y => simp [hfind, lookupA_insertA_ne _ _ hx]
            | none => simp [hfind, lookupA_insertA_ne _ _ hx]
      | none =>
          simp only
          by_cases hx : key x = i
          · have hfind : rest.find? (fun y => key y == i) = none :=
              find?_eq_none_of_not_mem_keys (hx ▸ hnd.1)
            rw [ih hnd.2, hfind, List.find?_cons_of_pos _ (by simp [hx]), ← hx,
              lookupA_insertA_self, hcase]
            simp
          · rw [ih hnd.2, List.find?_cons_of_neg _ (by simp [hx])]
            cases hfind : rest.find? (fun y => key y == i) with
            | some y => simp [hfind, lookupA_insertA_ne _ _ hx]
            | none => simp [hfind, lookupA_insertA_ne _ _ hx]

theorem phase2_snd_lookup {α : Type} (key : α → String) (rec : α → SearchResult)
    (w : α → ℝ) (l : List α) (maps : ScoreMaps) (i : String) :
    lookupA (phase2 key rec w l maps).2 i =
      match lookupA maps.1 i with
      | some _ => lookupA maps.2 i
      | none =>
          match l.find? (fun x => key x == i) with
          | some x => some (rec x)
          | none => lookupA maps.2 i := by
  induction l generalizing maps with
  | nil => cases h : lookupA maps.1 i <;> simp [phase2_nil, h]
  | cons x rest ih =>
      rw [phase2_cons]
      cases hcase : lookupA maps.1 (key x) with
      | some e =>
          simp only
          rw [ih]
          by_cases hx : key x = i
          · rw [← hx, lookupA_insertA_self, hcase]
          · rw [lookupA_insertA_ne _ _ hx]
            cases hi : lookupA maps.1 i with
            | some e2 => simp
            | none =>
                simp only
                rw [@List.find?_cons_of_neg _ (fun y => key y == i) x rest
                  (by simp [hx])]
      | none =>
          simp only
          rw [ih]
          by_cases hx : key x = i
          · rw [← hx, lookupA_insertA_self, hcase, lookupA_insertA_self,
              List.find?_cons_of_pos _ (by simp [hx])]
          · rw [lookupA_insertA_ne _ _ hx, lookupA_insertA_ne _ _ hx]
            cases hi : lookupA maps.1 i with
            | some e2 => simp
            | none =>
                simp only
                rw [@List.find?_cons_of_neg _ (fun y => key y == i) x rest
                  (by simp [hx])]

theorem phase1_nodup_fst {α : Type} (key : α → String) (rec : α → SearchResult)
    (w : α → ℝ) (l : List α) (maps : ScoreMaps)
    (h : (keysA maps.1).Nodup) : (keysA (phase1 key rec w l maps).1).Nodup := by
  induction l generalizing maps with
  | nil => exact h
  | cons x rest ih =>
      rw [phase1_cons]
      exact ih _ (nodup_keysA_insertA _ _ _ h)

theorem phase2_nodup_fst {α : Type} (key : α → String) (rec : α → SearchResult)
    (w : α → ℝ) (l : List α) (maps : ScoreMaps)
    (h : (keysA maps.1).Nodup) : (keysA (phase2 key rec w l maps).1).Nodup := by
  induction l generalizing maps with
  | nil => exact h
  | cons x rest ih =>
      rw [phase2_cons]
      cases hcase : lookupA maps.1 (key x) with
      | some e => exact ih _ (nodup_keysA_insertA _ _ _ h)
      | none => exact ih _ (nodup_keysA_insertA _ _ _ h)

theorem find?_of_mem_nodup {α : Type} {key : α → String} {l : List α}
    (hnd : (l.map key).Nodup) {x : α} (hx : x ∈ l) :
    l.find? (fun y => key y == key x) = some x := by
  induction l with
  | nil => simp at hx
  | cons a rest ih =>
      rw [List.map_cons, List.nodup_cons] at hnd
      rcases List.mem_cons.mp hx with h | h
      · rw [← h]
        exact List.find?_cons_of_pos _ (by simp)
      · have hka : key a ≠ key x := by
          intro he
          exact hnd.1 (he ▸ List.mem_map_of_mem key h)
        rw [List.find?_cons_of_neg _ (by simp [hka])]
        exact ih hnd.2 h

/-- The per-identifier contribution of the static result list in
weighted mode (`score · w_static`, 0 when absent). -/
noncomputable def staticContribution (rm : ResultMerger)
    (staticResults : List SearchResult) (i : String) : ℝ :=
  match staticResults.find? (fun r => r.id == i) with
  | some r => r.score * rm.config.staticWeight
  | none => 0

/-- The per-identifier contribution of the conversation result list in
weighted mode (weighted then decayed when timestamped, 0 when
absent). -/
noncomputable def convContribution (rm : ResultMerger)
    (convResults : List SearchResult) (currentTime : Time) (i : String) : ℝ :=
  match convResults.find? (fun r => r.id == i) with
  | some r => weightedConvScore rm r currentTime
  | none => 0

/-- The `scoreMap` built by `mergeWeighted`, per identifier. -/
theorem weighted_scoreMap_lookup (rm : ResultMerger)
    (sres cres : List SearchResult) (t : Time)
    (hs : (sres.map (·.id)).Nodup) (hc : (cres.map (·.id)).Nodup)
    (i : String) :
    lookupA (phase2 (fun r => r.id) (fun r => r)
      (fun r => weightedConvScore rm r t) cres
      (phase1 (fun r => r.id) (fun r => r)
        (fun r => r.score * rm.config.staticWeight) sres ([], []))).1 i =
    (match sres.find? (fun r => r.id == i), cres.find? (fun r => r.id == i) with
     | some s, some c =>
         some (s.score * rm.config.staticWeight + weightedConvScore rm c t)
     | some s, none => some (s.score * rm.config.staticWeight)
     | none, some c => some (weightedConvScore rm c t)
     | none, none => none) := by
  rw [phase2_fst_lookup _ _ _ _ hc, phase1_fst_lookup _ _ _ _ hs]
  cases hsf : sres.find? (fun r => r.id == i) <;>
    cases hcf : cres.find? (fun r => r.id == i) <;>
      simp [lookupA_nil]

/-- The `resultMap` built by `mergeWeighted`, per identifier: the
static record wins on overlap. -/
theorem weighted_resultMap_lookup (rm : ResultMerger)
    (sres cres : List SearchResult) (t : Time)
    (hs : (sres.map (·.id)).Nodup) (i : String) :
    lookupA (phase2 (fun r => r.id) (fun r => r)
      (fun r => weightedConvScore rm r t) cres
      (phase1 (fun r => r.id) (fun r => r)
        (fun r => r.score * rm.config.staticWeight) sres ([], []))).2 i =
    (match sres.find? (fun r => r.id == i) with
     | some s => some s
     | none =>
         match cres.find? (fun r => r.id == i) with
         | some c => some c
         | none => none) := by
  rw [phase2_snd_lookup, phase1_fst_lookup _ _ _ _ hs,
    phase1_snd_lookup _ _ _ _ hs]
  cases hsf : sres.find? (fun r => r.id == i) <;>
    cases hcf : cres.find? (fun r => r.id == i) <;>
      simp [lookupA_nil]

/-- Membership in `finalize`: exactly the images of the scoreMap
entries. -/
theorem mem_finalize {maps : ScoreMaps} {r : SearchResult} :
    r ∈ finalize maps ↔
      ∃ p ∈ maps.1,
        r = { (lookupA maps.2 p.1).getD default with score := p.2 } := by
  unfold finalize sortByScoreDesc
  rw [(List.perm_insertionSort scoreGE _).mem_iff, List.mem_map]
  constructor
  · rintro ⟨p, hp, h⟩
    exact ⟨p, hp, h.symm⟩
  · rintro ⟨p, hp, h⟩
    exact ⟨p, hp, h.symm⟩

/-- `finalize` output is sorted descending by score. -/
theorem finalize_sorted (maps : ScoreMaps) :
    (finalize maps).Sorted scoreGE :=
  List.sorted_insertionSort scoreGE _

theorem mergeWeighted_eq (rm : ResultMerger) (sres cres : List SearchResult)
    (t : Time) :
    rm.mergeWeighted sres cres t =
      finalize (phase2 (fun r => r.id) (fun r => r)
        (fun r => weightedConvScore rm r t) cres
        (phase1 (fun r => r.id) (fun r => r)
          (fun r => r.score * rm.config.staticWeight) sres ([], []))) := rfl

/-- For every identifier with a score entry, the weighted merge's
resultMap holds a record carrying that identifier. -/
theorem weighted_maps_consistent (rm : ResultMerger)
    (sres cres : List SearchResult) (t : Time)
    (hs : (sres.map (·.id)).Nodup) (hc : (cres.map (·.id)).Nodup)
    {i : String} {v : ℝ}
    (h : lookupA (phase2 (fun r => r.id) (fun r => r)
      (fun r => weightedConvScore rm r t) cres
      (phase1 (fun r => r.id) (fun r => r)
        (fun r => r.score * rm.config.staticWeight) sres ([], []))).1 i =
      some v) :
    ∃ rc, lookupA (phase2 (fun r => r.id) (fun r => r)
      (fun r => weightedConvScore rm r t) cres
      (phase1 (fun r => r.id) (fun r => r)
        (fun r => r.score * rm.config.staticWeight) sres ([], []))).2 i =
      some rc ∧ rc.id = i := by
  rw [weighted_scoreMap_lookup rm sres cres t hs hc] at h
  rw [weighted_resultMap_lookup rm sres cres t hs]
  cases hsf : sres.find? (fun r => r.id == i) with
  | some s =>
      refine ⟨s, rfl, ?_⟩
      have := List.find?_some hsf
      rwa [beq_iff_eq] at this
  | none =>
      rw [hsf] at h
      cases hcf : cres.find? (fun r => r.id == i) with
      | some c =>
          refine ⟨c, rfl, ?_⟩
          have := List.find?_some hcf
          rwa [beq_iff_eq] at this
      | none =>
          rw [hcf] at h
          simp at h

/-- C1: in weighted mode, on inputs whose identifiers are unique within
each list, every fused record's score is the sum of its static
contribution (`score · w_static`) and its conversation contribution
(weighted, then decayed when timestamped); the output carries exactly
the identifiers of the two inputs; and the output is sorted descending
by fused score. -/
theorem mergeWeighted_fused_scores (rm : ResultMerger)
    (sres cres : List SearchResult) (t : Time)
    (hs : (sres.map (·.id)).Nodup) (hc : (cres.map (·.id)).Nodup) :
    (∀ r ∈ rm.mergeWeighted sres cres t,
        r.score =
          staticContribution rm sres r.id + convContribution rm cres t r.id) ∧
    (∀ i : String,
        (∃ r ∈ rm.mergeWeighted sres cres t, r.id = i) ↔
          ((∃ s ∈ sres, s.id = i) ∨ (∃ c ∈ cres, c.id = i))) ∧
    (rm.mergeWeighted sres cres t).Sorted scoreGE := by
  have hndk : (keysA (phase2 (fun r => r.id) (fun r => r)
      (fun r => weightedConvScore rm r t) cres
      (phase1 (fun r => r.id) (fun r => r)
        (fun r => r.score * rm.config.staticWeight) sres ([], []))).1).Nodup :=
    phase2_nodup_fst _ _ _ _ _
      (phase1_nodup_fst _ _ _ _ _ (by rw [keysA_nil]; exact List.nodup_nil))
  refine ⟨?_, ?_, ?_⟩
  · intro r hr
    rw [mergeWeighted_eq, mem_finalize] at hr
    obtain ⟨p, hpmem, hreq⟩ := hr
    obtain ⟨p1, p2⟩ := p
    have hlook : lookupA (phase2 (fun r => r.id) (fun r => r)
        (fun r => weightedConvScore rm r t) cres
        (phase1 (fun r => r.id) (fun r => r)
          (fun r => r.score * rm.config.staticWeight) sres ([], []))).1 p1 =
        some p2 := lookupA_eq_some_of_mem hndk hpmem
    obtain ⟨rc, hrc, hrcid⟩ := weighted_maps_consistent rm sres cres t hs hc hlook
    have hid : r.id = p1 := by
      rw [hreq]
      simp only [hrc, Option.getD_some]
      exact hrcid
    have hscore : r.score = p2 := by rw [hreq]
    rw [weighted_scoreMap_lookup rm sres cres t hs hc p1] at hlook
    rw [hid, hscore]
    cases hsf : sres.find? (fun r => r.id == p1) with
    | some s =>
        cases hcf : cres.find? (fun r => r.id == p1) with
        | some c =>
            rw [hsf, hcf] at hlook
            simp only [Option.some.injEq] at hlook
            simp [staticContribution, convContribution, hsf, hcf, ← hlook]
        | none =>
            rw [hsf, hcf] at hlook
            simp only [Option.some.injEq] at hlook
            simp [staticContribution, convContribution, hsf, hcf, ← hlook]
    | none =>
        cases hcf : cres.find? (fun r => r.id == p1) with
        | some c =>
            rw [hsf, hcf] at hlook
            simp only [Option.some.injEq] at hlook
            simp [staticContribution, convContribution, hsf, hcf, ← hlook]
        | none =>
            rw [hsf, hcf] at hlook
            simp at hlook
  · intro i
    constructor
    · rintro ⟨r, hr, hri⟩
      rw [mergeWeighted_eq, mem_finalize] at hr
      obtain ⟨p, hpmem, hreq⟩ := hr
      obtain ⟨p1, p2⟩ := p
      have hlook : lookupA (phase2 (fun r => r.id) (fun r => r)
          (fun r => weightedConvScore rm r t) cres
          (phase1 (fun r => r.id) (fun r => r)
            (fun r => r.score * rm.config.staticWeight) sres ([], []))).1 p1 =
          some p2 := lookupA_eq_some_of_mem hndk hpmem
      obtain ⟨rc, hrc, hrcid⟩ :=
        weighted_maps_consistent rm sres cres t hs hc hlook
      have hid : r.id = p1 := by
        rw [hreq]
        simp only [hrc, Option.getD_some]
        exact hrcid
      rw [weighted_scoreMap_lookup rm sres cres t hs hc p1] at hlook
      have hip : i = p1 := by rw [← hri, hid]
      subst hip
      cases hsf : sres.find? (fun r => r.id == i) with
      | some s =>
          left
          refine ⟨s, List.mem_of_find?_eq_some hsf, ?_⟩
          have := List.find?_some hsf
          rwa [beq_iff_eq] at this
      | none =>
          cases hcf : cres.find? (fun r => r.id == i) with
          | some c =>
              right
              refine ⟨c, List.mem_of_find?_eq_some hcf, ?_⟩
              have := List.find?_some hcf
              rwa [beq_iff_eq] at this
          | none =>
              rw [hsf, hcf] at hlook
              simp at hlook
    · intro hmem
      have hsome : ∃ v, lookupA (phase2 (fun r => r.id) (fun r => r)
          (fun r => weightedConvScore rm r t) cres
          (phase1 (fun r => r.id) (fun r => r)
            (fun r => r.score * rm.config.staticWeight) sres ([], []))).1 i =
          some v := by
        rw [weighted_scoreMap_lookup rm sres cres t hs hc i]
        rcases hmem with ⟨s, hsmem, hsid⟩ | ⟨c, hcmem, hcid⟩
        · have hf := find?_of_mem_nodup hs hsmem
          rw [hsid] at hf
          rw [hf]
          cases hcf : cres.find? (fun r => r.id == i) <;> simp
        · have hf := find?_of_mem_nodup hc hcmem
          rw [hcid] at hf
          rw [hf]
          cases hsf : sres.find? (fun r => r.id == i) <;> simp
      obtain ⟨v, hv⟩ := hsome
      obtain ⟨rc, hrc, hrcid⟩ := weighted_maps_consistent rm sres cres t hs hc hv
      refine ⟨{ (lookupA (phase2 (fun r => r.id) (fun r => r)
          (fun r => weightedConvScore rm r t) cres
          (phase1 (fun r => r.id) (fun r => r)
            (fun r => r.score * rm.config.staticWeight) sres ([], []))).2 i
          |>.getD default) with score := v }, ?_, ?_⟩
      · rw [mergeWeighted_eq, mem_finalize]
        exact ⟨(i, v), mem_of_lookupA_eq_some hv, rfl⟩
      · simp only [hrc, Option.getD_some]
        exact hrcid
  · rw [mergeWeighted_eq]
    exact finalize_sorted _

/-- The `ResultMerger` built from the default configuration. -/
noncomputable def defaultMerger : ResultMerger :=
  ⟨DefaultMergeConfig, NewTemporalDecay DefaultMergeConfig.halfLifeMinutes
    DefaultMergeConfig.minTemporalWeight DefaultMergeConfig.temporalDecayEnabled⟩

/-- Scenario S2's static record `X = 1.0`. -/
noncomputable def s2Static : SearchResult :=
  { id := "X", docID := "", score := 1, text := "", metadata := [],
    source := SourceStatic, timestamp := none }

/-- Scenario S2's conversation record `X = 1.0 @ now` (with now = 0). -/
noncomputable def s2Conv : SearchResult :=
  { id := "X", docID := "", score := 1, text := "", metadata := [],
    source := SourceConversation, timestamp := some 0 }

/-- Witness for `mergeWeighted_fused_scores`: scenario S2 — static
`[X=1.0]` and conversation `[X=1.0 @ now]` under the default 0.6/0.4
weights fuse to exactly 1.0. -/
theorem mergeWeighted_fused_scores_witness :
    (([s2Static].map (·.id)).Nodup ∧ ([s2Conv].map (·.id)).Nodup) ∧
    defaultMerger.mergeWeighted [s2Static] [s2Conv] 0 =
      [{ s2Static with score := 1 }] ∧
    ({ s2Static with score := (1 : ℝ) }).score =
      staticContribution defaultMerger [s2Static]
        ({ s2Static with score := (1 : ℝ) }).id +
      convContribution defaultMerger [s2Conv] 0
        ({ s2Static with score := (1 : ℝ) }).id := by
  have heval : defaultMerger.mergeWeighted [s2Static] [s2Conv] 0 =
      [{ s2Static with score := 1 }] := by
    rw [mergeWeighted_eq]
    simp only [phase1_cons, phase1_nil, phase2_cons, phase2_nil]
    simp only [insertA, lookupA_cons, lookupA_nil, s2Static, s2Conv]
    norm_num
    simp only [finalize, sortByScoreDesc, List.map_cons, List.map_nil,
      lookupA_cons, lookupA_nil, List.insertionSort, List.orderedInsert,
      if_pos, Option.getD_some]
    simp only [weightedConvScore, TemporalDecay.Apply, defaultMerger,
      DefaultMergeConfig, NewTemporalDecay]
    norm_num
  refine ⟨⟨by simp, by simp⟩, heval, ?_⟩
  exact (mergeWeighted_fused_scores defaultMerger [s2Static] [s2Conv] 0
    (by simp) (by simp)).1 _ (by rw [heval]; exact List.mem_singleton_self _)

/-! ### Frame property of the merge (claim C10) -/

theorem enum_map_key (l : List SearchResult) :
    l.enum.map (fun p => p.2.id) = l.map (·.id) := by
  have h : (fun p : ℕ × SearchResult => p.2.id) =
      ((fun r : SearchResult => r.id) ∘ Prod.snd) := rfl
  rw [h, ← List.map_map, List.enum_map_snd]

theorem applyToResults_map_id (td : TemporalDecay) (res : List SearchResult)
    (t : Time) :
    (td.ApplyToResults res t).map (·.id) = res.map (·.id) := by
  unfold TemporalDecay.ApplyToResults
  rw [List.map_map]
  apply List.map_congr_left
  intro r _
  by_cases hsrc : r.source = SourceConversation
  · simp only [Function.comp_apply, hsrc, if_pos]
    cases r.timestamp <;> simp
  · simp [Function.comp_apply, hsrc]

/-- Any record the merged resultMap associates to an identifier carries
that identifier (generic over both merge algorithms' loops). -/
theorem merged_resultMap_id {α : Type} (key : α → String)
    (rec : α → SearchResult) (hkr : ∀ x, (rec x).id = key x)
    (w1 w2 : α → ℝ) (l1 l2 : List α) (hnd1 : (l1.map key).Nodup)
    {i : String} {rcd : SearchResult}
    (h : lookupA (phase2 key rec w2 l2 (phase1 key rec w1 l1 ([], []))).2 i =
      some rcd) : rcd.id = i := by
  rw [phase2_snd_lookup, phase1_fst_lookup _ _ _ _ hnd1,
    phase1_snd_lookup _ _ _ _ hnd1] at h
  cases hf1 : l1.find? (fun x => key x == i) with
  | some x =>
      rw [hf1] at h
      simp only [Option.some.injEq] at h
      rw [← h, hkr]
      have hpx := List.find?_some hf1
      simpa using hpx
  | none =>
      rw [hf1] at h
      cases hf2 : l2.find? (fun x => key x == i) with
      | some y =>
          rw [hf2] at h
          simp only [lookupA_nil] at h
          simp only [Option.some.injEq] at h
          rw [← h, hkr]
          have hpy := List.find?_some hf2
          simpa using hpy
      | none =>
          rw [hf2] at h
          simp [lookupA_nil] at h

theorem mergeRRF_eq (rm : ResultMerger) (sres cres : List SearchResult)
    (t : Time) :
    rm.mergeRRF sres cres t =
      finalize (phase2 (fun p => p.2.id) (fun p => p.2)
        (fun p => 1 / ((rm.config.rrfK : ℝ) + (p.1 : ℝ)) *
          rm.config.conversationWeight)
        (sortByScoreDesc (rm.temporalDecay.ApplyToResults cres t)).enum
        (phase1 (fun p => p.2.id) (fun p => p.2)
          (fun p => 1 / ((rm.config.rrfK : ℝ) + (p.1 : ℝ)) *
            rm.config.staticWeight)
          sres.enum ([], []))) := rfl

theorem find?_of_mem_nodup_eq {α : Type} {key : α → String} {l : List α}
    (hnd : (l.map key).Nodup) {x : α} (hx : x ∈ l) {i : String}
    (hi : key x = i) : l.find? (fun y => key y == i) = some x := by
  subst hi
  exact find?_of_mem_nodup hnd hx

/-- An identifier with a score entry has a record entry (generic over
both merge algorithms' loops). -/
theorem merged_resultMap_some {α : Type} (key : α → String)
    (rec : α → SearchResult) (w1 w2 : α → ℝ) (l1 l2 : List α)
    (hnd1 : (l1.map key).Nodup) (hnd2 : (l2.map key).Nodup)
    {i : String} {v : ℝ}
    (h : lookupA (phase2 key rec w2 l2 (phase1 key rec w1 l1 ([], []))).1 i =
      some v) :
    ∃ rcd, lookupA (phase2 key rec w2 l2 (phase1 key rec w1 l1 ([], []))).2 i =
      some rcd := by
  rw [phase2_fst_lookup _ _ _ _ hnd2, phase1_fst_lookup _ _ _ _ hnd1] at h
  rw [phase2_snd_lookup, phase1_fst_lookup _ _ _ _ hnd1,
    phase1_snd_lookup _ _ _ _ hnd1]
  cases hf1 : l1.find? (fun x => key x == i) with
  | some x => exact ⟨rec x, by simp⟩
  | none =>
      cases hf2 : l2.find? (fun x => key x == i) with
      | some y => exact ⟨rec y, by simp [lookupA_nil]⟩
      | none =>
          rw [hf1, hf2] at h
          simp [lookupA_nil] at h

/-- C10: in both weighted and RRF merge, an identifier present in both
input lists is returned as the static-side record with only its score
replaced — text, document id, source tag, timestamp and metadata all
come from the static record. -/
theorem merge_overlap_frame (rm : ResultMerger) (sres cres : List SearchResult)
    (t : Time) (hs : (sres.map (·.id)).Nodup) (hc : (cres.map (·.id)).Nodup)
    {rs rc : SearchResult} (hrs : rs ∈ sres) (hrc : rc ∈ cres)
    (hid : rc.id = rs.id) :
    ((∃ r ∈ rm.mergeWeighted sres cres t, r.id = rs.id) ∧
      ∀ r ∈ rm.mergeWeighted sres cres t, r.id = rs.id →
        r = { rs with score := r.score }) ∧
    ((∃ r ∈ rm.mergeRRF sres cres t, r.id = rs.id) ∧
      ∀ r ∈ rm.mergeRRF sres cres t, r.id = rs.id →
        r = { rs with score := r.score }) := by
  have hfs : sres.find? (fun y => y.id == rs.id) = some rs :=
    find?_of_mem_nodup_eq hs hrs rfl
  have hfc : cres.find? (fun y => y.id == rs.id) = some rc :=
    find?_of_mem_nodup_eq hc hrc hid
  constructor
  · -- weighted
    have hndkW : (keysA (phase2 (fun r => r.id) (fun r => r)
        (fun r => weightedConvScore rm r t) cres
        (phase1 (fun r => r.id) (fun r => r)
          (fun r => r.score * rm.config.staticWeight) sres ([], []))).1).Nodup :=
      phase2_nodup_fst _ _ _ _ _
        (phase1_nodup_fst _ _ _ _ _ (by rw [keysA_nil]; exact List.nodup_nil))
    have hlook1 : lookupA (phase2 (fun r => r.id) (fun r => r)
        (fun r => weightedConvScore rm r t) cres
        (phase1 (fun r => r.id) (fun r => r)
          (fun r => r.score * rm.config.staticWeight) sres ([], []))).1 rs.id =
        some (rs.score * rm.config.staticWeight + weightedConvScore rm rc t) := by
      rw [weighted_scoreMap_lookup rm sres cres t hs hc, hfs, hfc]
    have hlook2 : lookupA (phase2 (fun r => r.id) (fun r => r)
        (fun r => weightedConvScore rm r t) cres
        (phase1 (fun r => r.id) (fun r => r)
          (fun r => r.score * rm.config.staticWeight) sres ([], []))).2 rs.id =
        some rs := by
      rw [weighted_resultMap_lookup rm sres cres t hs, hfs]
    constructor
    · refine ⟨{ rs with
          score := rs.score * rm.config.staticWeight + weightedConvScore rm rc t },
        ?_, rfl⟩
      rw [mergeWeighted_eq, mem_finalize]
      exact ⟨(rs.id, _), mem_of_lookupA_eq_some hlook1, by simp [hlook2]⟩
    · intro r hr hrid
      rw [mergeWeighted_eq, mem_finalize] at hr
      obtain ⟨⟨p1, p2⟩, hpmem, hreq⟩ := hr
      have hlookp := lookupA_eq_some_of_mem hndkW hpmem
      obtain ⟨rcd, hrcd, hrcdid⟩ :=
        weighted_maps_consistent rm sres cres t hs hc hlookp
      have hrid2 : r.id = p1 := by
        rw [hreq]
        simp only [hrcd, Option.getD_some]
        exact hrcdid
      have hp1 : p1 = rs.id := by rw [← hrid2, hrid]
      subst hp1
      rw [hreq]
      simp [hlook2]
  · -- rrf
    have hsE : (sres.enum.map (fun p => p.2.id)).Nodup := by
      rw [enum_map_key]
      exact hs
    have hdc : ((sortByScoreDesc
        (rm.temporalDecay.ApplyToResults cres t)).map (·.id)).Nodup := by
      have hperm := (List.perm_insertionSort scoreGE
        (rm.temporalDecay.ApplyToResults cres t)).map (fun r : SearchResult => r.id)
      exact hperm.nodup_iff.mpr (by rw [applyToResults_map_id]; exact hc)
    have hcE : ((sortByScoreDesc
        (rm.temporalDecay.ApplyToResults cres t)).enum.map
          (fun p => p.2.id)).Nodup := by
      rw [enum_map_key]
      exact hdc
    obtain ⟨pe, hpe, hpe2⟩ : ∃ p ∈ sres.enum, p.2 = rs := by
      have h' : rs ∈ sres.enum.map Prod.snd := by
        rw [List.enum_map_snd]
        exact hrs
      exact List.mem_map.mp h'
    have hfsE : sres.enum.find? (fun y => y.2.id == rs.id) = some pe :=
      find?_of_mem_nodup_eq hsE hpe (by rw [hpe2])
    have hndkR : (keysA (phase2 (fun p => p.2.id) (fun p => p.2)
        (fun p => 1 / ((rm.config.rrfK : ℝ) + (p.1 : ℝ)) *
          rm.config.conversationWeight)
        (sortByScoreDesc (rm.temporalDecay.ApplyToResults cres t)).enum
        (phase1 (fun p => p.2.id) (fun p => p.2)
          (fun p => 1 / ((rm.config.rrfK : ℝ) + (p.1 : ℝ)) *
            rm.config.staticWeight)
          sres.enum ([], []))).1).Nodup :=
      phase2_nodup_fst _ _ _ _ _
        (phase1_nodup_fst _ _ _ _ _ (by rw [keysA_nil]; exact List.nodup_nil))
    have hlookR1 : ∃ v, lookupA (phase2 (fun p => p.2.id) (fun p => p.2)
        (fun p => 1 / ((rm.config.rrfK : ℝ) + (p.1 : ℝ)) *
          rm.config.conversationWeight)
        (sortByScoreDesc (rm.temporalDecay.ApplyToResults cres t)).enum
        (phase1 (fun p => p.2.id) (fun p => p.2)
          (fun p => 1 / ((rm.config.rrfK : ℝ) + (p.1 : ℝ)) *
            rm.config.staticWeight)
          sres.enum ([], []))).1 rs.id = some v := by
      rw [phase2_fst_lookup _ _ _ _ hcE, phase1_fst_lookup _ _ _ _ hsE, hfsE]
      cases hfc2 : (sortByScoreDesc
          (rm.temporalDecay.ApplyToResults cres t)).enum.find?
            (fun y => y.2.id == rs.id) with
      | some y => exact ⟨_, rfl⟩
      | none => exact ⟨_, rfl⟩
    have hlookR2 : lookupA (phase2 (fun p => p.2.id) (fun p => p.2)
        (fun p => 1 / ((rm.config.rrfK : ℝ) + (p.1 : ℝ)) *
          rm.config.conversationWeight)
        (sortByScoreDesc (rm.temporalDecay.ApplyToResults cres t)).enum
        (phase1 (fun p => p.2.id) (fun p => p.2)
          (fun p => 1 / ((rm.config.rrfK : ℝ) + (p.1 : ℝ)) *
            rm.config.staticWeight)
          sres.enum ([], []))).2 rs.id = some rs := by
      rw [phase2_snd_lookup, phase1_fst_lookup _ _ _ _ hsE,
        phase1_snd_lookup _ _ _ _ hsE, hfsE]
      simp [hpe2]
    obtain ⟨v, hv⟩ := hlookR1
    constructor
    · refine ⟨{ rs with score := v }, ?_, rfl⟩
      rw [mergeRRF_eq, mem_finalize]
      refine ⟨(rs.id, v), mem_of_lookupA_eq_some hv, ?_⟩
      rw [hlookR2]
      simp
    · intro r hr hrid
      rw [mergeRRF_eq, mem_finalize] at hr
      obtain ⟨⟨p1, p2⟩, hpmem, hreq⟩ := hr
      have hlookp := lookupA_eq_some_of_mem hndkR hpmem
      obtain ⟨rcd, hrcd⟩ := merged_resultMap_some _ _ _ _ _ _ hsE hcE hlookp
      have hrcdid : rcd.id = p1 :=
        merged_resultMap_id _ _ (fun _ => rfl) _ _ _ _ hsE hrcd
      have hrid2 : r.id = p1 := by
        rw [hreq]
        simp only [hrcd, Option.getD_some]
        exact hrcdid
      have hp1 : p1 = rs.id := by rw [← hrid2, hrid]
      subst hp1
      rw [hreq, hlookR2]
      simp

/-- Witness for `merge_overlap_frame` at scenario S2's overlapping
identifier. -/
theorem merge_overlap_frame_witness :
    (([s2Static].map (·.id)).Nodup ∧ ([s2Conv].map (·.id)).Nodup ∧
      s2Static ∈ [s2Static] ∧ s2Conv ∈ [s2Conv] ∧ s2Conv.id = s2Static.id) ∧
    (∃ r ∈ defaultMerger.mergeWeighted [s2Static] [s2Conv] 0,
      r.id = s2Static.id) ∧
    (∃ r ∈ defaultMerger.mergeRRF [s2Static] [s2Conv] 0,
      r.id = s2Static.id) := by
  have h := merge_overlap_frame defaultMerger [s2Static] [s2Conv] 0
    (by simp) (by simp) (List.mem_singleton_self _) (List.mem_singleton_self _)
    rfl
  exact ⟨⟨by simp, by simp, List.mem_singleton_self _,
    List.mem_singleton_self _, rfl⟩, h.1.1, h.2.1⟩

/-! ### Coordinator lifecycle (claims C3, C6) -/

/-- A freshly constructed retriever over the default configurations. -/
noncomputable def sampleRetriever : AgentRAGRetriever :=
  { config := DefaultMergeConfig, merger := defaultMerger,
    indexConfig := DefaultIndexConfig,
    temporalDecay := NewTemporalDecay DefaultMergeConfig.halfLifeMinutes
      DefaultMergeConfig.minTemporalWeight DefaultMergeConfig.temporalDecayEnabled,
    closed := false, clientCloseCalls := 0 }

/-- `sampleRetriever` after one `Close`. -/
noncomputable def sampleClosedRetriever : AgentRAGRetriever :=
  (sampleRetriever.Close).1

/-- A sample query with no truncation (limit 0 signals "no truncation"
to the fusion engine). -/
def sampleQuery : Query :=
  { text := "q", vector := [], limit := 0, timeRange := none,
    includeMeta := false }

/-- C3, amended: `Close` is idempotent — a second `Close` returns nil
without closing the transport again — and after `Close` every
operation except `UpdateConfig` returns the closed-retriever error
without contacting the adapter; `UpdateConfig` is not guarded by the
closed flag. -/
theorem close_idempotent_and_sticky (r : AgentRAGRetriever) :
    ((r.Close).1.Close = ((r.Close).1, Except.ok ()) ∧
      ((r.Close).1.Close).1.clientCloseCalls = (r.Close).1.clientCloseCalls ∧
      (r.Close).1.closed = true) ∧
    (∀ s : AgentRAGRetriever, s.closed = true →
      (∀ o, s.SearchStatic o = (.error ErrClosedRetriever, false)) ∧
      (∀ o now, s.SearchConversation o now = (.error ErrClosedRetriever, false)) ∧
      (∀ so co q now,
        s.SearchHybrid so co q now = (.error ErrClosedRetriever, false)) ∧
      (∀ o, s.AddConversationTurn o = (.error ErrClosedRetriever, false)) ∧
      (∀ o, s.AddKnowledgeDocument o = (.error ErrClosedRetriever, false)) ∧
      (∀ o, s.PruneOldConversations o = (.error ErrClosedRetriever, false)) ∧
      (∀ o, s.HealthCheck o = (.error ErrClosedRetriever, false))) := by
  constructor
  · have hclosed : (r.Close).1.closed = true := by
      unfold AgentRAGRetriever.Close
      by_cases h : r.closed <;> simp [h]
    have hgen : ∀ s : AgentRAGRetriever, s.closed = true →
        s.Close = (s, Except.ok ()) := by
      intro s h
      unfold AgentRAGRetriever.Close
      rw [if_pos h]
    have hsecond := hgen _ hclosed
    exact ⟨hsecond, by rw [hsecond], hclosed⟩
  · intro s hs
    refine ⟨?_, ?_, ?_, ?_, ?_, ?_, ?_⟩ <;>
      intros <;>
        simp [AgentRAGRetriever.SearchStatic,
          AgentRAGRetriever.SearchConversation, AgentRAGRetriever.SearchHybrid,
          AgentRAGRetriever.AddConversationTurn,
          AgentRAGRetriever.AddKnowledgeDocument,
          AgentRAGRetriever.PruneOldConversations,
          AgentRAGRetriever.HealthCheck, hs]

/-- Witness for `close_idempotent_and_sticky` at the default retriever
and concrete adapter outcomes. -/
theorem close_idempotent_and_sticky_witness :
    sampleClosedRetriever.closed = true ∧
    sampleClosedRetriever.SearchHybrid (.ok []) (.ok []) sampleQuery 0 =
      (.error ErrClosedRetriever, false) ∧
    sampleClosedRetriever.PruneOldConversations (.ok 0) =
      (.error ErrClosedRetriever, false) :=
  ⟨rfl,
    (((close_idempotent_and_sticky sampleRetriever).2 sampleClosedRetriever
      rfl).2.2.1) (.ok []) (.ok []) sampleQuery 0,
    (((close_idempotent_and_sticky sampleRetriever).2 sampleClosedRetriever
      rfl).2.2.2.2.2.1) (.ok 0)⟩

/-- C3, counterexample to the claim as stated: `UpdateConfig` after
`Close` does not return the closed-retriever error — it validates and
installs the new config (the source's `UpdateConfig` never consults
the closed flag). -/
theorem updateConfig_after_close_counterexample :
    sampleClosedRetriever.closed = true ∧
    (sampleClosedRetriever.UpdateConfig DefaultMergeConfig).2 = none := by
  constructor
  · rfl
  · unfold AgentRAGRetriever.UpdateConfig
    have hval : DefaultMergeConfig.Validate = none := by
      unfold MergeConfig.Validate DefaultMergeConfig
      norm_num
    rw [hval]

/-- C6, amended: the accepted configs are exactly those with both
weights in [0,1], strictly positive half-life and minimum decay
multiplier in [0,1]; the algorithm selector and the RRF constant are
not validated. A rejected config leaves the installed config unchanged
and surfaces the corresponding error, at construction and on update. -/
theorem validate_checks_numeric_fields_only (c : MergeConfig) :
    (c.Validate = none ↔
      (0 ≤ c.staticWeight ∧ c.staticWeight ≤ 1 ∧
       0 ≤ c.conversationWeight ∧ c.conversationWeight ≤ 1 ∧
       0 < c.halfLifeMinutes ∧
       0 ≤ c.minTemporalWeight ∧ c.minTemporalWeight ≤ 1)) ∧
    (∀ e, c.Validate = some e →
      (∀ r : AgentRAGRetriever, r.UpdateConfig c = (r, some e)) ∧
      NewAgentRAGRetriever (some c) none =
        .error ("invalid config: " ++ e)) := by
  constructor
  · constructor
    · intro h
      unfold MergeConfig.Validate at h
      split_ifs at h with h1 h2 h3 h4
      push_neg at h1 h2 h4
      rw [not_le] at h3
      exact ⟨h1.1, h1.2, h2.1, h2.2, h3, h4.1, h4.2⟩
    · rintro ⟨ha, hb, hc', hd, he, hf, hg⟩
      unfold MergeConfig.Validate
      rw [if_neg (by push_neg; exact ⟨ha, hb⟩),
        if_neg (by push_neg; exact ⟨hc', hd⟩),
        if_neg (not_le.mpr he),
        if_neg (by push_neg; exact ⟨hf, hg⟩)]
  · intro e he
    constructor
    · intro r
      unfold AgentRAGRetriever.UpdateConfig
      rw [he]
    · unfold NewAgentRAGRetriever
      simp only [Option.getD_some]
      rw [he]

/-- Witness for `validate_checks_numeric_fields_only` at a config whose
static weight 2 is out of range. -/
noncomputable def badWeightConfig : MergeConfig :=
  { staticWeight := 2, conversationWeight := 0.4,
    temporalDecayEnabled := true, halfLifeMinutes := 30,
    minTemporalWeight := 0.01, algorithm := "weighted", rrfK := 60 }

theorem validate_checks_numeric_fields_only_witness :
    badWeightConfig.Validate = some ErrInvalidWeight ∧
    sampleRetriever.UpdateConfig badWeightConfig =
      (sampleRetriever, some ErrInvalidWeight) := by
  have hval : badWeightConfig.Validate = some ErrInvalidWeight := by
    unfold MergeConfig.Validate badWeightConfig
    norm_num
  exact ⟨hval, ((validate_checks_numeric_fields_only badWeightConfig).2
    ErrInvalidWeight hval).1 sampleRetriever⟩

/-- C6, counterexample to the claim as stated: a config with an
unrecognized algorithm selector and RRF constant k = 0 is accepted by
`Validate` (the source checks neither field). -/
noncomputable def bogusConfig : MergeConfig :=
  { staticWeight := 0.5, conversationWeight := 0.5,
    temporalDecayEnabled := true, halfLifeMinutes := 30,
    minTemporalWeight := 0.01, algorithm := "bogus", rrfK := 0 }

theorem validate_accepts_bogus_algorithm_counterexample :
    bogusConfig.Validate = none ∧
    ¬(bogusConfig.algorithm = "weighted" ∨ bogusConfig.algorithm = "rrf") ∧
    ¬(0 < bogusConfig.rrfK) := by
  refine ⟨?_, ?_, ?_⟩
  · unfold MergeConfig.Validate bogusConfig
    norm_num
  · show ¬("bogus" = "weighted" ∨ "bogus" = "rrf")
    decide
  · show ¬((0 : ℤ) < 0)
    decide

/-! ### Partial-failure policy of SearchHybrid (claim C2) -/

/-- C2: on an open retriever, if both sub-searches error the call
returns a single composite error naming both messages; if exactly one
errors, the empty list is substituted for the failing side and fusion
proceeds without an error; if both succeed, the fused (and
limit-truncated) list is returned. -/
theorem searchHybrid_partial_failure (r : AgentRAGRetriever)
    (hopen : r.closed = false) (q : Query) (now : Time) :
    (∀ se ce, r.SearchHybrid (.error se) (.error ce) q now =
      (.error ("both searches failed: static=" ++ se ++ ", conversation=" ++ ce),
       true)) ∧
    (∀ se convRes, r.SearchHybrid (.error se) (.ok convRes) q now =
      (.ok (if 0 < q.limit ∧
              q.limit < ((r.merger.Merge [] convRes now).length : ℤ)
            then (r.merger.Merge [] convRes now).take q.limit.toNat
            else r.merger.Merge [] convRes now), true)) ∧
    (∀ statRes ce, r.SearchHybrid (.ok statRes) (.error ce) q now =
      (.ok (if 0 < q.limit ∧
              q.limit < ((r.merger.Merge statRes [] now).length : ℤ)
            then (r.merger.Merge statRes [] now).take q.limit.toNat
            else r.merger.Merge statRes [] now), true)) ∧
    (∀ statRes convRes, r.SearchHybrid (.ok statRes) (.ok convRes) q now =
      (.ok (if 0 < q.limit ∧
              q.limit < ((r.merger.Merge statRes convRes now).length : ℤ)
            then (r.merger.Merge statRes convRes now).take q.limit.toNat
            else r.merger.Merge statRes convRes now), true)) := by
  refine ⟨?_, ?_, ?_, ?_⟩ <;> intros <;>
    simp [AgentRAGRetriever.SearchHybrid, hopen]

/-- Scenario S3's conversation record `Y = 0.7 @ now` (now = 0). -/
noncomputable def s3Conv : SearchResult :=
  { id := "Y", docID := "", score := 0.7, text := "", metadata := [],
    source := SourceConversation, timestamp := some 0 }

/-- Witness for `searchHybrid_partial_failure`: scenario S3 — static
transport error, conversation `[Y=0.7 @ now]`, default 0.6/0.4 weights
→ `[Y = 0.7·0.4 = 0.28]` and no error. -/
theorem searchHybrid_partial_failure_witness :
    sampleRetriever.closed = false ∧
    sampleRetriever.SearchHybrid (.error "transport error") (.ok [s3Conv])
      sampleQuery 0 =
      (.ok [{ s3Conv with score := 0.7 * 0.4 }], true) := by
  refine ⟨rfl, ?_⟩
  have h := (searchHybrid_partial_failure sampleRetriever rfl sampleQuery
    0).2.1 "transport error" [s3Conv]
  rw [h]
  have hmerge : sampleRetriever.merger.Merge [] [s3Conv] 0 =
      [{ s3Conv with score := 0.7 * 0.4 }] := by
    unfold ResultMerger.Merge
    rw [if_neg (by show ¬("weighted" = "rrf" ∨ "weighted" = "reciprocal_rank_fusion"); decide)]
    rw [mergeWeighted_eq]
    simp only [phase1_nil, phase2_cons, phase2_nil]
    simp only [insertA, lookupA_cons, lookupA_nil, s3Conv]
    simp only [finalize, sortByScoreDesc, List.map_cons, List.map_nil,
      lookupA_cons, lookupA_nil, List.insertionSort, List.orderedInsert,
      if_pos, Option.getD_some]
    simp only [weightedConvScore, TemporalDecay.Apply, sampleRetriever,
      defaultMerger, DefaultMergeConfig, NewTemporalDecay]
    norm_num
  rw [hmerge]
  simp [sampleQuery]

/-! ### Response parsing (claim C7) -/

/-- C7, amended: response parsing is a total function; a missing key or
a non-map node along the navigation path yields a structured parse
error (and those are the only errors `parseSearchResults` returns);
but a record's own missing or wrong-typed fields (`_additional.id`,
`_additional.score`, the text field) are silently defaulted to zero
values, not reported. -/
theorem parse_navigation_errors_and_silent_defaults :
    (∀ (m : List (String × JValue)) (key : String) (rest : List String),
       lookupJ m key = none →
       navigatePath (JValue.obj m) (key :: rest) =
         .error ("key not found: " ++ key)) ∧
    (∀ (v : JValue) (key : String) (rest : List String),
       (∀ fields, v ≠ JValue.obj fields) →
       navigatePath v (key :: rest) =
         .error ("unexpected type at path " ++ key)) ∧
    (∀ (data : List (String × JValue)) (path : List String) (e : String),
       parseSearchResults data path = .error e →
       navigatePath (JValue.obj data) path = .error e) ∧
    extractSearchResult [] =
      { id := "", docID := "", score := 0, text := "", metadata := [],
        source := "", timestamp := none } := by
  refine ⟨?_, ?_, ?_, rfl⟩
  · intro m key rest h
    unfold navigatePath
    rw [h]
  · intro v key rest h
    cases v with
    | obj fields => exact absurd rfl (h fields)
    | null => rfl
    | bool b => rfl
    | num x => rfl
    | str s => rfl
    | arr xs => rfl
  · intro data path e h
    unfold parseSearchResults at h
    cases hnav : navigatePath (JValue.obj data) path with
    | error e2 =>
        rw [hnav] at h
        simp only [Except.error.injEq] at h
        rw [h]
    | ok cur =>
        rw [hnav] at h
        cases cur <;> simp at h

/-- Witness for `parse_navigation_errors_and_silent_defaults` at a
response missing the collection key and at a non-map node. -/
theorem parse_navigation_errors_witness :
    lookupJ [("Get", JValue.obj [])] "Data" = none ∧
    navigatePath (JValue.obj [("Get", JValue.obj [])]) ["Data"] =
      .error ("key not found: " ++ "Data") ∧
    (∀ fields, JValue.str "x" ≠ JValue.obj fields) ∧
    navigatePath (JValue.str "x") ["Get"] =
      .error ("unexpected type at path " ++ "Get") :=
  ⟨rfl,
    parse_navigation_errors_and_silent_defaults.1 [("Get", JValue.obj [])]
      "Data" [] rfl,
    fun fields h => JValue.noConfusion h,
    parse_navigation_errors_and_silent_defaults.2.1 (JValue.str "x") "Get" []
      (fun fields h => JValue.noConfusion h)⟩

/-- C7, counterexample to the claim as stated: a record with no
`_additional`, no id, no score and no text field parses without any
error into a zero-valued record — the missing keys are silently
defaulted, not reported as a parse error. -/
theorem parse_silently_defaults_counterexample :
    parseSearchResults
      [("Get", JValue.obj [("KnowledgeBase", JValue.arr [JValue.obj []])])]
      (GetResultPath "KnowledgeBase") =
      .ok [{ id := "", docID := "", score := 0, text := "", metadata := [],
             source := SourceStatic, timestamp := none }] := rfl

/-! ### Batch-delete count (claim C8) -/

/-- C8: evaluated at a batch-delete response that reports three deleted
objects, `PruneOldConversations` still returns 0 — the source's
`executeBatchDelete` never parses the response and returns the
placeholder count 0 on every success. -/
theorem pruneOldConversations_returns_placeholder_zero :
    WeaviateClient.PruneOldConversations
      (.ok [("BatchDelete", JValue.obj [("objects", JValue.arr
        [JValue.obj [("id", JValue.str "a")],
         JValue.obj [("id", JValue.str "b")],
         JValue.obj [("id", JValue.str "c")]])])]) = .ok 0 ∧
    (3 : ℤ) ≠ 0 :=
  ⟨rfl, by decide⟩

/-! ### Query builder determinism and snapshot (claim C9) -/

/-- C9: the query builder is a pure function of its inputs — equal
inputs render byte-identical strings — and
`HybridQuery("machine learning", [0.1,0.2,0.3], 0.5)` on
`KnowledgeBase` with limit 10 renders a string containing exactly the
hybrid clause, `limit:10`, and the field list `title,content` (the
rendered string is shown split around those substrings). -/
theorem hybridQuery_deterministic_and_snapshot :
    (∀ (qb₁ qb₂ : QueryBuilder) (t₁ t₂ : String) (v₁ v₂ : List ℚ)
        (a₁ a₂ : ℚ),
      qb₁.className = qb₂.className → qb₁.limit = qb₂.limit → t₁ = t₂ →
      v₁ = v₂ → a₁ = a₂ →
      qb₁.HybridQuery t₁ v₁ a₁ = qb₂.HybridQuery t₂ v₂ a₂) ∧
    (NewQueryBuilder "KnowledgeBase" 10).HybridQuery "machine learning"
        [mkRat 1 10, mkRat 2 10, mkRat 3 10] (mkRat 5 10) =
      "\x7b Get \x7b KnowledgeBase(" ++
        "hybrid:\x7bquery:\"machine learning\",vector:[0.100000,0.200000,0.300000],alpha:0.50\x7d" ++
        ",limit:10" ++
        ")\x7b_additional\x7bid,score,vector\x7d" ++
        "title,content" ++
        "\x7d\x7d\x7d" := by
  constructor
  · intro qb₁ qb₂ t₁ t₂ v₁ v₂ a₁ a₂ hcn hlim ht hv ha
    obtain ⟨c1, l1⟩ := qb₁
    obtain ⟨c2, l2⟩ := qb₂
    simp only at hcn hlim
    subst hcn
    subst hlim
    subst ht
    subst hv
    subst ha
    rfl
  · decide

/-- Witness for `hybridQuery_deterministic_and_snapshot`: two renders
with equal inputs coincide. -/
theorem hybridQuery_deterministic_witness :
    (NewQueryBuilder "Conversation" 5).HybridQuery "mq" [] 0 =
      (NewQueryBuilder "Conversation" 5).HybridQuery "mq" [] 0 :=
  hybridQuery_deterministic_and_snapshot.1 _ _ _ _ _ _ _ _
    rfl rfl rfl rfl rfl

end AgentRAG
